import Mathlib

/-!
Verification of the transport obfuscation layer
(`src/lib/grammers-mtproto/src/transport/obfuscated.rs`) and of the
salt/dispatch discipline described in the specification.

Bytes are modelled as `Nat` values below 256; byte buffers as `List Nat`.
The AES-256-CTR cipher used by the code comes from external crates
(`aes`, `ctr`), so the cipher core is modelled abstractly: a keystream
family `KS key iv i` yields the `i`-th keystream byte for a key/IV pair,
and CTR-mode encryption XORs data bytes with consecutive keystream bytes
starting at the cipher's running position.  Everything else is a direct
translation of the Rust source.
-/

namespace Grammers

/-- A keystream family: `KS key iv i` is the `i`-th keystream byte
produced by the stream cipher keyed with `key`/`iv`.
Modelled from the spec: the spec fixes the cipher to AES-256-CTR, whose
implementation lives in external crates outside this repository; only
its stream-cipher interface (`new`, `apply_keystream`) is relied upon. -/
def KSF : Type := List Nat → List Nat → Nat → Nat

/-- State of one direction's stream cipher: its key, IV and the running
keystream position (number of keystream bytes already consumed).
Mirrors `ctr::Ctr128BE<aes::Aes256>` as used by the source. -/
structure Cipher where
  key : List Nat
  iv : List Nat
  pos : Nat
  deriving DecidableEq, Repr

/-- `ctr::Ctr128BE::<aes::Aes256>::new(key, iv)`: a fresh cipher at
keystream position 0. -/
def Cipher.new (key iv : List Nat) : Cipher := ⟨key, iv, 0⟩

/-- XOR a buffer with consecutive keystream bytes `ks i, ks (i+1), ...`.
Keystream bytes are reduced mod 256 so that outputs stay bytes. -/
def ksBytes (ks : Nat → Nat) : Nat → List Nat → List Nat
  | _, [] => []
  | i, b :: rest => Nat.xor b (ks i % 256) :: ksBytes ks (i + 1) rest

/-- `cipher.apply_keystream(&mut data)`: XOR `data` in place with the
keystream at the cipher's running position, and advance the position by
`data.length`. -/
def Cipher.apply_keystream (KS : KSF) (c : Cipher) (data : List Nat) :
    Cipher × List Nat :=
  (⟨c.key, c.iv, c.pos + data.length⟩, ksBytes (KS c.key c.iv) c.pos data)

/-- `&l[a..b]`: the slice of `l` from index `a` (inclusive) to `b`
(exclusive). -/
def slice (l : List Nat) (a b : Nat) : List Nat := (l.drop a).take (b - a)

/-- `l[a..a+repl.len()].copy_from_slice(&repl)`: overwrite the slice of
`l` starting at `a` with `repl`. -/
def setSlice (l : List Nat) (a : Nat) (repl : List Nat) : List Nat :=
  l.take a ++ repl ++ l.drop (a + repl.length)

/-- The nine deny-listed 4-byte leading sequences
(`FORBIDDEN_FIRST_INTS` in the source). -/
def FORBIDDEN_FIRST_INTS : List (List Nat) :=
  [[0x44, 0x41, 0x45, 0x48],
   [0x54, 0x53, 0x4f, 0x50],
   [0x20, 0x54, 0x45, 0x47],
   [0x49, 0x54, 0x50, 0x4f],
   [0x02, 0x01, 0x03, 0x16],
   [0xdd, 0xdd, 0xdd, 0xdd],
   [0xee, 0xee, 0xee, 0xee],
   [0x50, 0x4f, 0x53, 0x54],
   [0x47, 0x45, 0x54, 0x20]]

/-- The rejection condition of the `while` loop in `generate_keys`:
a freshly drawn 64-byte block is redrawn while `init[4..8] == [0; 4]`,
or `init[0] == 0xef`, or `init[..4]` matches a deny-listed sequence. -/
def rejectInit (b : List Nat) : Bool :=
  (slice b 4 8 = [0, 0, 0, 0] : Bool)
    || (b.getD 0 0 = 0xef : Bool)
    || FORBIDDEN_FIRST_INTS.any (fun start => start = slice b 0 4)

/-- The rejection-sampling loop of `generate_keys`.  `init` starts as
all zeros, which always fails the check (`init[4..8] == [0; 4]`), so the
loop draws fresh blocks from the random source until one passes; the
result is the first drawn block that is not rejected.  The random source
is modelled as the list of successive 64-byte draws; `none` means the
supplied draws were exhausted without an acceptable block. -/
def drawInit (draws : List (List Nat)) : Option (List Nat) :=
  draws.find? (fun b => !(rejectInit b))

/-- Inner transport behaviour, as consumed by `Obfuscated<T>`: a 4-byte
tag (`obfuscated_tag`), a `pack` that frames a payload buffer while
updating the transport's own state `σ`, and a `reset`. -/
structure InnerTransport (σ : Type) where
  obfuscated_tag : List Nat
  pack : σ → List Nat → σ × List Nat
  reset : σ → σ

/-- `Obfuscated<T>`: the inner transport's state, the optional pending
64-byte header, and the two direction ciphers. -/
structure Obfuscated (σ : Type) where
  inner : σ
  head : Option (List Nat)
  rx_cipher : Cipher
  tx_cipher : Cipher
  deriving DecidableEq, Repr

/-- `Obfuscated::generate_keys`: draw an acceptable random 64-byte
block, overwrite bytes 56..60 with the inner transport's tag, derive the
receive cipher from the byte-reversed block (key `rev[8..40]`, IV
`rev[40..56]`) and the transmit cipher from the block itself (key
`init[8..40]`, IV `init[40..56]`), encrypt a copy of the block with the
transmit cipher, and splice the encrypted bytes 56..64 back over the
block.  Returns the final header block and the two ciphers. -/
def Obfuscated.generate_keys (KS : KSF) (tag : List Nat)
    (draws : List (List Nat)) : Option (List Nat × Cipher × Cipher) :=
  (drawInit draws).map fun b =>
    let init := setSlice b 56 tag
    let init_rev := init.reverse
    let rx_cipher := Cipher.new (slice init_rev 8 40) (slice init_rev 40 56)
    let tx0 := Cipher.new (slice init 8 40) (slice init 40 56)
    let p := tx0.apply_keystream KS init
    (setSlice init 56 (slice p.2 56 64), rx_cipher, p.1)

/-- `Obfuscated::new`: run key generation and store the resulting header
as pending. -/
def Obfuscated.new (KS : KSF) (T : InnerTransport σ) (s : σ)
    (draws : List (List Nat)) : Option (Obfuscated σ) :=
  (Obfuscated.generate_keys KS T.obfuscated_tag draws).map fun r =>
    ⟨s, some r.1, r.2.1, r.2.2⟩

/-- `Obfuscated::pack`: delegate framing to the inner transport, apply
the transmit keystream in place over the framed bytes, then prepend the
pending header (if any) and clear it. -/
def Obfuscated.pack (KS : KSF) (T : InnerTransport σ) (st : Obfuscated σ)
    (buffer : List Nat) : Obfuscated σ × List Nat :=
  let p := T.pack st.inner buffer
  let q := st.tx_cipher.apply_keystream KS p.2
  match st.head with
  | some head => (⟨p.1, none, st.rx_cipher, q.1⟩, head ++ q.2)
  | none => (⟨p.1, none, st.rx_cipher, q.1⟩, q.2)

/-- `Obfuscated::reset`: reset the inner transport and regenerate the
header and both ciphers. -/
def Obfuscated.reset (KS : KSF) (T : InnerTransport σ) (st : Obfuscated σ)
    (draws : List (List Nat)) : Option (Obfuscated σ) :=
  let s := T.reset st.inner
  (Obfuscated.generate_keys KS T.obfuscated_tag draws).map fun r =>
    ⟨s, some r.1, r.2.1, r.2.2⟩

/-- `Obfuscated::obfuscated_tag`: `unreachable!` — a fatal panic on
every call, modelled as an `Except.error` carrying the panic message. -/
def Obfuscated.obfuscated_tag (_ : Obfuscated σ) : Except String (List Nat) :=
  Except.error "obfuscated transport cannot be nested"

/-- `Obfuscated::deobfuscate`: apply the receive keystream in place over
the buffer. -/
def Obfuscated.deobfuscate (KS : KSF) (st : Obfuscated σ)
    (buffer : List Nat) : Obfuscated σ × List Nat :=
  let q := st.rx_cipher.apply_keystream KS buffer
  (⟨st.inner, st.head, q.1, st.tx_cipher⟩, q.2)

/-! ### Salt store and request dispatcher

The salt/dispatch layer itself is not among the repository's source
files (only the deadlock-reproduction example
`src/lib/grammers-client/examples/reproduce.rs` is), so it is modelled
from the specification's description (§4.3, §4.4). -/

/-- Modelled from the spec: a salt is an opaque 8-byte signed identifier
plus a validity window (start, end timestamps).  The dispatcher and
store code is absent from the repository sources. -/
structure Salt where
  id : Int
  valid_since : Int
  valid_until : Int
  deriving DecidableEq, Repr

/-- Modelled from the spec: the ordered pool of currently-valid salts. -/
structure SaltStore where
  salts : List Salt
  deriving DecidableEq, Repr

/-- Modelled from the spec: `pick_current` returns the salt with the
latest validity window that has not expired relative to the local
clock, or none if no salt qualifies. -/
def SaltStore.pick_current (store : SaltStore) (now : Int) : Option Salt :=
  (store.salts.filter fun s => now < s.valid_until).foldl
    (fun acc s =>
      match acc with
      | none => some s
      | some t => if t.valid_since < s.valid_since then some s else some t)
    none

/-- Modelled from the spec: `ingest` merges server-pushed salts into the
set, deduplicating by identifier and keeping the most recent validity
window per identifier. -/
def SaltStore.ingest (store : SaltStore) (fresh : List Salt) : SaltStore :=
  ⟨fresh.foldl
    (fun acc s =>
      if acc.any fun t => t.id = s.id then
        acc.map fun t =>
          if t.id = s.id ∧ t.valid_since < s.valid_since then s else t
      else acc ++ [s])
    store.salts⟩

/-- Modelled from the spec: the per-request state machine
`Pending(awaiting salt) → Sent`. -/
inductive ReqState where
  | Pending
  | Sent (salt : Int)
  deriving DecidableEq, Repr

/-- Modelled from the spec: the dispatcher owns the salt store, the
in-flight request table (correlation id, request state) and the flag
recording that an out-of-band salt-refresh action was scheduled. -/
structure Dispatcher where
  store : SaltStore
  inflight : List (Nat × ReqState)
  refresh_requested : Bool
  deriving DecidableEq, Repr

/-- Modelled from the spec: on submit, a request is attached a current
salt and moves to `Sent` immediately if one exists; otherwise it is
recorded as `Pending` — the caller is never blocked — and the
out-of-band salt-refresh action is scheduled. -/
def Dispatcher.submit (d : Dispatcher) (now : Int) (cid : Nat) : Dispatcher :=
  match d.store.pick_current now with
  | some s => ⟨d.store, d.inflight ++ [(cid, ReqState.Sent s.id)], d.refresh_requested⟩
  | none => ⟨d.store, d.inflight ++ [(cid, ReqState.Pending)], true⟩

/-- Submit a batch of concurrent requests one after the other. -/
def Dispatcher.submitAll (d : Dispatcher) (now : Int) (cids : List Nat) : Dispatcher :=
  cids.foldl (fun acc c => acc.submit now c) d

/-- Modelled from the spec: when `ingest` succeeds, all `Pending`
requests are re-evaluated; with a current salt now available every
`Pending` request is attached the salt and moves to `Sent`. -/
def Dispatcher.ingest (d : Dispatcher) (fresh : List Salt) (now : Int) : Dispatcher :=
  let store := d.store.ingest fresh
  match store.pick_current now with
  | some s =>
      ⟨store,
       d.inflight.map fun e =>
         match e.2 with
         | ReqState.Pending => (e.1, ReqState.Sent s.id)
         | _ => e,
       false⟩
  | none => ⟨store, d.inflight, d.refresh_requested⟩

/-! ### Concrete instances used by witnesses and counterexamples -/

/-- A degenerate keystream family: every keystream byte is `0xff`. -/
def KS0 : KSF := fun _ _ _ => 0xff

/-- A degenerate keystream family: every keystream byte is `0`. -/
def KSz : KSF := fun _ _ _ => 0

/-- A concrete tagged inner transport with tag `[1, 2, 3, 4]` and
identity framing. -/
def T0 : InnerTransport Unit := ⟨[1, 2, 3, 4], fun s p => (s, p), fun s => s⟩

/-- A concrete acceptable random block: 64 bytes of `1`. -/
def b0 : List Nat := List.replicate 64 1

def draws0 : List (List Nat) := [b0]

/-- An acceptable random block whose byte 8 breaks the reverse
symmetry, so that the derived transmit and receive keys differ. -/
def b7 : List Nat := List.replicate 8 1 ++ [5] ++ List.replicate 55 1

def draws7 : List (List Nat) := [b7]

def st0 : Obfuscated Unit :=
  (Obfuscated.new KS0 T0 () draws0).getD ⟨(), none, Cipher.new [] [], Cipher.new [] []⟩

def st7 : Obfuscated Unit :=
  (Obfuscated.new KSz T0 () draws7).getD ⟨(), none, Cipher.new [] [], Cipher.new [] []⟩

/-- A concrete decorator state with no pending header. -/
def stn : Obfuscated Unit := ⟨(), none, Cipher.new [3] [4], Cipher.new [1] [2]⟩

/-- The decorator state obtained by a reset after a first `pack`. -/
def str6 : Obfuscated Unit :=
  (Obfuscated.reset KSz T0 (Obfuscated.pack KSz T0 st7 [1]).1 draws0).getD
    ⟨(), none, Cipher.new [] [], Cipher.new [] []⟩

/-- The decorator state obtained by a reset right after construction. -/
def str10 : Obfuscated Unit :=
  (Obfuscated.reset KSz T0 st7 draws0).getD
    ⟨(), none, Cipher.new [] [], Cipher.new [] []⟩

def d0 : Dispatcher := ⟨⟨[]⟩, [], false⟩

def salt0 : Salt := ⟨5, 0, 10⟩

/-! ### Derived views of the intermediate values of `generate_keys`

These name the `let`-bound subexpressions of `Obfuscated.generate_keys`
so that theorems can speak about them. -/

/-- The 64-byte block after the tag overwrite (`init` after line
`init[56..60].copy_from_slice(inner.obfuscated_tag())`). -/
def taggedBlock (b tag : List Nat) : List Nat := setSlice b 56 tag

/-- The transmit-direction keystream derived from a tagged block:
key `init[8..40]`, IV `init[40..56]`. -/
def txks (KS : KSF) (b tag : List Nat) : Nat → Nat :=
  KS (slice (taggedBlock b tag) 8 40) (slice (taggedBlock b tag) 40 56)

/-- `encrypted_init`: the transmit-encryption of the full tagged block
(keystream positions 0..64). -/
def encryptedBlock (KS : KSF) (b tag : List Nat) : List Nat :=
  ksBytes (txks KS b tag) 0 (taggedBlock b tag)

/-- The final header block: the tagged block with the encrypted bytes
56..64 spliced back over it. -/
def headerBlock (KS : KSF) (b tag : List Nat) : List Nat :=
  setSlice (taggedBlock b tag) 56 (slice (encryptedBlock KS b tag) 56 64)

/-! ### Basic lemmas -/

theorem ksBytes_length (ks : Nat → Nat) (i : Nat) (l : List Nat) :
    (ksBytes ks i l).length = l.length := by
  induction l generalizing i with
  | nil => rfl
  | cons x xs ih => simp [ksBytes, ih]

theorem ksBytes_getElem? (ks : Nat → Nat) (i j : Nat) (l : List Nat) :
    (ksBytes ks i l)[j]? = l[j]?.map fun x => Nat.xor x (ks (i + j) % 256) := by
  induction l generalizing i j with
  | nil => simp [ksBytes]
  | cons x xs ih =>
    cases j with
    | zero => simp [ksBytes]
    | succ j =>
      simp only [ksBytes, List.getElem?_cons_succ]
      rw [ih]
      have harith : i + 1 + j = i + (j + 1) := by omega
      rw [harith]

theorem xor_xor_eq_self (x a b : Nat) : Nat.xor (Nat.xor x a) b = x ↔ a = b := by
  show x ^^^ a ^^^ b = x ↔ a = b
  rw [Nat.xor_assoc]
  constructor
  · intro h
    have h0 : x ^^^ (a ^^^ b) = x ^^^ 0 := by rw [Nat.xor_zero]; exact h
    exact Nat.xor_eq_zero.mp (Nat.xor_right_injective h0)
  · intro h
    rw [h, Nat.xor_self, Nat.xor_zero]

/-- Applying one keystream after another restores the original bytes
exactly when the two keystream segments coincide (mod 256) positionwise. -/
theorem ksBytes_ksBytes_eq_self (ks1 ks2 : Nat → Nat) (i j : Nat) (l : List Nat) :
    ksBytes ks2 j (ksBytes ks1 i l) = l ↔
      ∀ k, k < l.length → ks1 (i + k) % 256 = ks2 (j + k) % 256 := by
  induction l generalizing i j with
  | nil => simp [ksBytes]
  | cons x xs ih =>
    simp only [ksBytes, List.cons.injEq, List.length_cons]
    constructor
    · rintro ⟨hhead, htail⟩ k hk
      cases k with
      | zero => simpa using (xor_xor_eq_self x _ _).mp hhead
      | succ k =>
        have := ((ih (i + 1) (j + 1)).mp htail) k (by omega)
        have ha : i + 1 + k = i + (k + 1) := by omega
        have hb : j + 1 + k = j + (k + 1) := by omega
        rw [ha, hb] at this
        exact this
    · intro h
      refine ⟨(xor_xor_eq_self x _ _).mpr ?_, (ih (i + 1) (j + 1)).mpr ?_⟩
      · simpa using h 0 (by omega)
      · intro k hk
        have := h (k + 1) (by omega)
        have ha : i + 1 + k = i + (k + 1) := by omega
        have hb : j + 1 + k = j + (k + 1) := by omega
        rw [ha, hb]
        exact this

theorem taggedBlock_length (b tag : List Nat) (hb : b.length = 64)
    (htag : tag.length = 4) : (taggedBlock b tag).length = 64 := by
  simp [taggedBlock, setSlice, hb, htag]

theorem taggedBlock_take (b tag : List Nat) (hb : b.length = 64) :
    (taggedBlock b tag).take 56 = b.take 56 := by
  have h56 : (b.take 56).length = 56 := by simp [hb]
  simp only [taggedBlock, setSlice, List.append_assoc]
  exact List.take_left' h56

theorem slice_taggedBlock_tag (b tag : List Nat) (hb : b.length = 64)
    (htag : tag.length = 4) : slice (taggedBlock b tag) 56 60 = tag := by
  have h56 : (b.take 56).length = 56 := by simp [hb]
  simp only [taggedBlock, setSlice, slice, List.append_assoc]
  rw [List.drop_left' h56]
  show (tag ++ b.drop (56 + tag.length)).take 4 = tag
  exact List.take_left' htag

theorem encryptedBlock_length (KS : KSF) (b tag : List Nat) (hb : b.length = 64)
    (htag : tag.length = 4) : (encryptedBlock KS b tag).length = 64 := by
  rw [encryptedBlock, ksBytes_length]
  exact taggedBlock_length b tag hb htag

theorem slice_encryptedBlock_length (KS : KSF) (b tag : List Nat)
    (hb : b.length = 64) (htag : tag.length = 4) :
    (slice (encryptedBlock KS b tag) 56 64).length = 8 := by
  simp [slice, encryptedBlock_length KS b tag hb htag]

theorem headerBlock_eq_append (KS : KSF) (b tag : List Nat) (hb : b.length = 64)
    (htag : tag.length = 4) :
    headerBlock KS b tag =
      (taggedBlock b tag).take 56 ++ slice (encryptedBlock KS b tag) 56 64 := by
  have hlen := taggedBlock_length b tag hb htag
  have hslen := slice_encryptedBlock_length KS b tag hb htag
  rw [headerBlock, setSlice, hslen]
  have hdrop : (taggedBlock b tag).drop 64 = [] :=
    List.drop_eq_nil_of_le (by omega)
  rw [hdrop, List.append_nil]

theorem headerBlock_length (KS : KSF) (b tag : List Nat) (hb : b.length = 64)
    (htag : tag.length = 4) : (headerBlock KS b tag).length = 64 := by
  rw [headerBlock_eq_append KS b tag hb htag]
  have hlen := taggedBlock_length b tag hb htag
  have hslen := slice_encryptedBlock_length KS b tag hb htag
  simp [hlen, hslen]

theorem slice_headerBlock (KS : KSF) (b tag : List Nat) (hb : b.length = 64)
    (htag : tag.length = 4) :
    slice (headerBlock KS b tag) 56 60 = slice (encryptedBlock KS b tag) 56 60 := by
  rw [headerBlock_eq_append KS b tag hb htag]
  have htake : ((taggedBlock b tag).take 56).length = 56 := by
    simp [taggedBlock_length b tag hb htag]
  rw [slice, List.drop_left' htake]
  show (slice (encryptedBlock KS b tag) 56 64).take 4 = _
  rw [slice, slice, List.take_take]
  norm_num

/-! ### Characterizations of `generate_keys`, `new`, `reset` and `pack` -/

theorem generate_keys_eq (KS : KSF) (tag : List Nat) (draws : List (List Nat))
    (b : List Nat) (hd : drawInit draws = some b) :
    Obfuscated.generate_keys KS tag draws =
      some (headerBlock KS b tag,
            Cipher.new (slice (taggedBlock b tag).reverse 8 40)
                       (slice (taggedBlock b tag).reverse 40 56),
            ⟨slice (taggedBlock b tag) 8 40, slice (taggedBlock b tag) 40 56,
             (taggedBlock b tag).length⟩) := by
  simp [Obfuscated.generate_keys, hd, Cipher.apply_keystream, Cipher.new,
    taggedBlock, txks, encryptedBlock, headerBlock]

theorem new_eq {σ : Type} (KS : KSF) (T : InnerTransport σ) (s : σ)
    (draws : List (List Nat)) (b : List Nat) (hd : drawInit draws = some b) :
    Obfuscated.new KS T s draws =
      some ⟨s, some (headerBlock KS b T.obfuscated_tag),
            Cipher.new (slice (taggedBlock b T.obfuscated_tag).reverse 8 40)
                       (slice (taggedBlock b T.obfuscated_tag).reverse 40 56),
            ⟨slice (taggedBlock b T.obfuscated_tag) 8 40,
             slice (taggedBlock b T.obfuscated_tag) 40 56,
             (taggedBlock b T.obfuscated_tag).length⟩⟩ := by
  rw [Obfuscated.new, generate_keys_eq KS T.obfuscated_tag draws b hd]
  rfl

theorem reset_eq {σ : Type} (KS : KSF) (T : InnerTransport σ) (st : Obfuscated σ)
    (draws : List (List Nat)) (b : List Nat) (hd : drawInit draws = some b) :
    Obfuscated.reset KS T st draws =
      some ⟨T.reset st.inner, some (headerBlock KS b T.obfuscated_tag),
            Cipher.new (slice (taggedBlock b T.obfuscated_tag).reverse 8 40)
                       (slice (taggedBlock b T.obfuscated_tag).reverse 40 56),
            ⟨slice (taggedBlock b T.obfuscated_tag) 8 40,
             slice (taggedBlock b T.obfuscated_tag) 40 56,
             (taggedBlock b T.obfuscated_tag).length⟩⟩ := by
  rw [Obfuscated.reset, generate_keys_eq KS T.obfuscated_tag draws b hd]
  rfl

theorem pack_eq_of_head_some {σ : Type} (KS : KSF) (T : InnerTransport σ)
    (st : Obfuscated σ) (buffer h : List Nat) (hh : st.head = some h) :
    Obfuscated.pack KS T st buffer =
      (⟨(T.pack st.inner buffer).1, none, st.rx_cipher,
        ⟨st.tx_cipher.key, st.tx_cipher.iv,
         st.tx_cipher.pos + (T.pack st.inner buffer).2.length⟩⟩,
       h ++ ksBytes (KS st.tx_cipher.key st.tx_cipher.iv) st.tx_cipher.pos
              (T.pack st.inner buffer).2) := by
  simp [Obfuscated.pack, hh, Cipher.apply_keystream]

theorem pack_eq_of_head_none {σ : Type} (KS : KSF) (T : InnerTransport σ)
    (st : Obfuscated σ) (buffer : List Nat) (hh : st.head = none) :
    Obfuscated.pack KS T st buffer =
      (⟨(T.pack st.inner buffer).1, none, st.rx_cipher,
        ⟨st.tx_cipher.key, st.tx_cipher.iv,
         st.tx_cipher.pos + (T.pack st.inner buffer).2.length⟩⟩,
       ksBytes (KS st.tx_cipher.key st.tx_cipher.iv) st.tx_cipher.pos
         (T.pack st.inner buffer).2) := by
  simp [Obfuscated.pack, hh, Cipher.apply_keystream]

/-- The state left by `pack` is the same whether or not a header was
pending: the inner state advances, the pending header is cleared, the
receive cipher is untouched and the transmit cipher advances by the
framed length. -/
theorem pack_fst {σ : Type} (KS : KSF) (T : InnerTransport σ)
    (st : Obfuscated σ) (buffer : List Nat) :
    (Obfuscated.pack KS T st buffer).1 =
      ⟨(T.pack st.inner buffer).1, none, st.rx_cipher,
       ⟨st.tx_cipher.key, st.tx_cipher.iv,
        st.tx_cipher.pos + (T.pack st.inner buffer).2.length⟩⟩ := by
  cases hh : st.head with
  | none => rw [pack_eq_of_head_none KS T st buffer hh]
  | some h => rw [pack_eq_of_head_some KS T st buffer h hh]

theorem slice_append_of_le (l1 l2 : List Nat) (a b : Nat) (h : b ≤ l1.length) :
    slice (l1 ++ l2) a b = slice l1 a b := by
  rw [slice, slice, List.drop_append_eq_append_drop, List.take_append_eq_append_take]
  have hd : (l1.drop a).length = l1.length - a := List.length_drop a l1
  have hz : b - a - (l1.drop a).length = 0 := by omega
  rw [hz, List.take_zero, List.append_nil]

/-! ### Dispatcher lemmas -/

theorem submit_store (d : Dispatcher) (now : Int) (cid : Nat) :
    (d.submit now cid).store = d.store := by
  rw [Dispatcher.submit]
  cases d.store.pick_current now <;> rfl

theorem submitAll_of_empty (d : Dispatcher) (now : Int) (cids : List Nat)
    (h : d.store.pick_current now = none) :
    (d.submitAll now cids).store = d.store ∧
    (d.submitAll now cids).inflight =
      d.inflight ++ cids.map (fun c => (c, ReqState.Pending)) ∧
    (d.submitAll now cids).refresh_requested =
      (d.refresh_requested || !cids.isEmpty) := by
  induction cids generalizing d with
  | nil => simp [Dispatcher.submitAll]
  | cons c cs ih =>
    have hsub : d.submit now c = ⟨d.store, d.inflight ++ [(c, ReqState.Pending)], true⟩ := by
      rw [Dispatcher.submit, h]
    have hfold : d.submitAll now (c :: cs) = (d.submit now c).submitAll now cs := rfl
    have hstore : (d.submit now c).store = d.store := submit_store d now c
    have h' : (d.submit now c).store.pick_current now = none := by rw [hstore]; exact h
    obtain ⟨h1, h2, h3⟩ := ih (d.submit now c) h'
    refine ⟨?_, ?_, ?_⟩
    · rw [hfold, h1, hstore]
    · rw [hfold, h2, hsub]
      simp
    · rw [hfold, h3, hsub]
      simp

/-! ### Claims -/

/-- C3: every 64-byte block produced by the rejection-sampling loop of
key generation (used by both construction and reset), before the tag
overwrite, has bytes 4..8 not all zero, byte 0 different from the
reserved sentinel `0xef`, and first four bytes matching none of the 9
deny-listed sequences. -/
theorem claim_C3 (draws : List (List Nat)) (b : List Nat)
    (hd : drawInit draws = some b) :
    slice b 4 8 ≠ [0, 0, 0, 0] ∧ b.getD 0 0 ≠ 0xef ∧
      ∀ f ∈ FORBIDDEN_FIRST_INTS, slice b 0 4 ≠ f := by
  have h := List.find?_some hd
  simp only [rejectInit, Bool.not_eq_true', Bool.or_eq_false_iff,
    decide_eq_false_iff_not, List.any_eq_false, decide_eq_true_eq] at h
  exact ⟨h.1.1, h.1.2, fun f hf => Ne.symm (h.2 f hf)⟩

/-- C3 witness: a concrete random source whose first draw is rejected
(all zeros) and whose second draw is accepted. -/
theorem claim_C3_witness :
    drawInit [List.replicate 64 0, b0] = some b0 ∧
    (slice b0 4 8 ≠ [0, 0, 0, 0] ∧ b0.getD 0 0 ≠ 0xef ∧
      ∀ f ∈ FORBIDDEN_FIRST_INTS, slice b0 0 4 ≠ f) :=
  ⟨by decide, claim_C3 [List.replicate 64 0, b0] b0 (by decide)⟩

/-- C8: `obfuscated_tag` on an obfuscation decorator never returns a
tag and always aborts with the contract-violation panic, for every
state of the decorator. -/
theorem claim_C8 (σ : Type) (st : Obfuscated σ) :
    Obfuscated.obfuscated_tag st =
        Except.error "obfuscated transport cannot be nested" ∧
      ∀ t, Obfuscated.obfuscated_tag st ≠ Except.ok t :=
  ⟨rfl, fun _ h => by cases h⟩

/-- C2: key generation writes the tag at bytes 56..60 of the plaintext
block, encrypts a copy of the full block with the transmit cipher
(`encryptedBlock`), and splices exactly the encrypted bytes 56..64 back
over the plaintext block, so the returned header equals plaintext bytes
0..56 followed by the transmit-encryption of the block at 56..64. -/
theorem claim_C2 (KS : KSF) (tag b : List Nat) (draws : List (List Nat))
    (hdr : List Nat) (rx tx : Cipher)
    (hd : drawInit draws = some b) (hb : b.length = 64) (htag : tag.length = 4)
    (hgen : Obfuscated.generate_keys KS tag draws = some (hdr, rx, tx)) :
    slice (taggedBlock b tag) 56 60 = tag ∧
    hdr = setSlice (taggedBlock b tag) 56 (slice (encryptedBlock KS b tag) 56 64) ∧
    hdr = (taggedBlock b tag).take 56 ++ slice (encryptedBlock KS b tag) 56 64 := by
  have hkeys := generate_keys_eq KS tag draws b hd
  rw [hgen] at hkeys
  have h := Option.some.inj hkeys
  have hhdr : hdr = headerBlock KS b tag := congrArg Prod.fst h
  refine ⟨slice_taggedBlock_tag b tag hb htag, ?_, ?_⟩
  · rw [hhdr]; rfl
  · rw [hhdr, headerBlock_eq_append KS b tag hb htag]

/-- C2 witness: concrete key generation over `draws0` with tag
`[1, 2, 3, 4]`. -/
theorem claim_C2_witness :
    drawInit draws0 = some b0 ∧
    (slice (taggedBlock b0 [1, 2, 3, 4]) 56 60 = [1, 2, 3, 4] ∧
     headerBlock KS0 b0 [1, 2, 3, 4] =
       setSlice (taggedBlock b0 [1, 2, 3, 4]) 56
         (slice (encryptedBlock KS0 b0 [1, 2, 3, 4]) 56 64) ∧
     headerBlock KS0 b0 [1, 2, 3, 4] =
       (taggedBlock b0 [1, 2, 3, 4]).take 56 ++
         slice (encryptedBlock KS0 b0 [1, 2, 3, 4]) 56 64) :=
  ⟨by decide,
   claim_C2 KS0 [1, 2, 3, 4] b0 draws0 (headerBlock KS0 b0 [1, 2, 3, 4]) _ _
     (by decide) (by decide) (by decide)
     (generate_keys_eq KS0 [1, 2, 3, 4] draws0 b0 (by decide))⟩

/-- C4: for every header block accepted by key generation, the receive
cipher is initialized with key `reversed[8..40]` and IV
`reversed[40..56]` of the byte-reversed tagged block, and the transmit
cipher with key `block[8..40]` and IV `block[40..56]` of the
non-reversed tagged block. -/
theorem claim_C4 (KS : KSF) (tag b : List Nat) (draws : List (List Nat))
    (hdr : List Nat) (rx tx : Cipher)
    (hd : drawInit draws = some b)
    (hgen : Obfuscated.generate_keys KS tag draws = some (hdr, rx, tx)) :
    rx.key = slice (taggedBlock b tag).reverse 8 40 ∧
    rx.iv = slice (taggedBlock b tag).reverse 40 56 ∧
    tx.key = slice (taggedBlock b tag) 8 40 ∧
    tx.iv = slice (taggedBlock b tag) 40 56 := by
  have hkeys := generate_keys_eq KS tag draws b hd
  rw [hgen] at hkeys
  have h := Option.some.inj hkeys
  have hrx : rx = Cipher.new (slice (taggedBlock b tag).reverse 8 40)
      (slice (taggedBlock b tag).reverse 40 56) := congrArg (fun p => p.2.1) h
  have htx : tx = ⟨slice (taggedBlock b tag) 8 40, slice (taggedBlock b tag) 40 56,
      (taggedBlock b tag).length⟩ := congrArg (fun p => p.2.2) h
  rw [hrx, htx]
  exact ⟨rfl, rfl, rfl, rfl⟩

/-- C4 witness: concrete key generation over `draws7`. -/
theorem claim_C4_witness :
    drawInit draws7 = some b7 ∧
    (st7.rx_cipher.key = slice (taggedBlock b7 [1, 2, 3, 4]).reverse 8 40 ∧
     st7.rx_cipher.iv = slice (taggedBlock b7 [1, 2, 3, 4]).reverse 40 56 ∧
     st7.tx_cipher.key = slice (taggedBlock b7 [1, 2, 3, 4]) 8 40 ∧
     st7.tx_cipher.iv = slice (taggedBlock b7 [1, 2, 3, 4]) 40 56) :=
  ⟨by decide,
   claim_C4 KSz [1, 2, 3, 4] b7 draws7 (headerBlock KSz b7 [1, 2, 3, 4])
     st7.rx_cipher st7.tx_cipher (by decide) (by decide)⟩

/-- C5: `pack` first delegates framing to the inner transport, then
XORs the transmit keystream in place over exactly the inner-framed
bytes (elementwise, at the cipher's running positions), and only
afterwards prepends the pending header — if any — without applying the
keystream to it, clearing the pending flag. -/
theorem claim_C5 (σ : Type) (KS : KSF) (T : InnerTransport σ)
    (st : Obfuscated σ) (payload : List Nat) :
    (Obfuscated.pack KS T st payload).1.inner = (T.pack st.inner payload).1 ∧
    (Obfuscated.pack KS T st payload).2 =
      st.head.getD [] ++
        ksBytes (KS st.tx_cipher.key st.tx_cipher.iv) st.tx_cipher.pos
          (T.pack st.inner payload).2 ∧
    (∀ j : Nat,
      (ksBytes (KS st.tx_cipher.key st.tx_cipher.iv) st.tx_cipher.pos
          (T.pack st.inner payload).2)[j]? =
        ((T.pack st.inner payload).2)[j]?.map
          (fun x => Nat.xor x
            (KS st.tx_cipher.key st.tx_cipher.iv (st.tx_cipher.pos + j) % 256))) ∧
    (Obfuscated.pack KS T st payload).1.head = none := by
  cases hh : st.head with
  | none =>
    rw [pack_eq_of_head_none KS T st payload hh]
    exact ⟨rfl, by simp [hh], fun j => ksBytes_getElem? _ _ j _, rfl⟩
  | some h =>
    rw [pack_eq_of_head_some KS T st payload h hh]
    exact ⟨rfl, by simp [hh], fun j => ksBytes_getElem? _ _ j _, rfl⟩

/-- C1 counterexample: with inner tag `[1, 2, 3, 4]`, the bytes at
offsets 56..60 of the first `pack` output are the *encrypted* tag bytes
(here `[254, 253, 252, 251]`), not the plaintext tag. -/
theorem claim_C1_counterexample :
    ((Obfuscated.new KS0 T0 () draws0).map fun st =>
        slice (Obfuscated.pack KS0 T0 st [9]).2 56 60) =
      some [254, 253, 252, 251] ∧
    ([254, 253, 252, 251] : List Nat) ≠ T0.obfuscated_tag := by
  decide

/-- C1 (amended): the bytes at offsets 56..60 of the first `pack`
output equal the transmit-encryption of the header block at those
offsets (the plaintext block carries the tag there before the splice),
the output is exactly 64 bytes longer than the inner-framed payload,
and a second `pack` emits no extra header bytes. -/
theorem claim_C1_amended (σ : Type) (KS : KSF) (T : InnerTransport σ) (s : σ)
    (draws : List (List Nat)) (b : List Nat) (st : Obfuscated σ)
    (payload : List Nat)
    (hd : drawInit draws = some b) (hb : b.length = 64)
    (htag : T.obfuscated_tag.length = 4)
    (hnew : Obfuscated.new KS T s draws = some st) :
    (Obfuscated.pack KS T st payload).2.length = 64 + (T.pack s payload).2.length ∧
    slice (Obfuscated.pack KS T st payload).2 56 60 =
      slice (encryptedBlock KS b T.obfuscated_tag) 56 60 ∧
    slice (taggedBlock b T.obfuscated_tag) 56 60 = T.obfuscated_tag ∧
    (Obfuscated.pack KS T (Obfuscated.pack KS T st payload).1 payload).2.length =
      (T.pack (Obfuscated.pack KS T st payload).1.inner payload).2.length := by
  have hst := new_eq KS T s draws b hd
  rw [hnew] at hst
  have hstv := Option.some.inj hst
  subst hstv
  rw [pack_eq_of_head_some KS T _ payload (headerBlock KS b T.obfuscated_tag) rfl]
  refine ⟨?_, ?_, slice_taggedBlock_tag b T.obfuscated_tag hb htag, ?_⟩
  · simp [headerBlock_length KS b T.obfuscated_tag hb htag, ksBytes_length]
  · rw [slice_append_of_le _ _ 56 60
      (by rw [headerBlock_length KS b T.obfuscated_tag hb htag]; omega)]
    exact slice_headerBlock KS b T.obfuscated_tag hb htag
  · rw [pack_eq_of_head_none KS T _ payload rfl]
    exact ksBytes_length _ _ _

/-- C1 witness: the amended claim at the concrete instance `KS0`, `T0`,
`draws0`, payload `[9]`. -/
theorem claim_C1_amended_witness :
    Obfuscated.new KS0 T0 () draws0 = some st0 ∧
    ((Obfuscated.pack KS0 T0 st0 [9]).2.length = 64 + (T0.pack () [9]).2.length ∧
     slice (Obfuscated.pack KS0 T0 st0 [9]).2 56 60 =
       slice (encryptedBlock KS0 b0 T0.obfuscated_tag) 56 60 ∧
     slice (taggedBlock b0 T0.obfuscated_tag) 56 60 = T0.obfuscated_tag ∧
     (Obfuscated.pack KS0 T0 (Obfuscated.pack KS0 T0 st0 [9]).1 [9]).2.length =
       (T0.pack (Obfuscated.pack KS0 T0 st0 [9]).1.inner [9]).2.length) :=
  ⟨by decide,
   claim_C1_amended Unit KS0 T0 () draws0 b0 st0 [9]
     (by decide) (by decide) (by decide) (by decide)⟩

/-- C6: the handshake header is emitted at most once per connection
lifetime: the first `pack` after construction prepends the pending
header, leaves no header pending, so the next `pack` emits only the
encrypted framed bytes; `reset` restores exactly one pending header and
the next `pack` emits the fresh header exactly once. -/
theorem claim_C6 (σ : Type) (KS : KSF) (T : InnerTransport σ) (s : σ)
    (draws draws2 : List (List Nat)) (b b2 : List Nat)
    (p1 p2 p3 p4 : List Nat) (st st' : Obfuscated σ)
    (hd : drawInit draws = some b)
    (hnew : Obfuscated.new KS T s draws = some st)
    (hd2 : drawInit draws2 = some b2)
    (hreset : Obfuscated.reset KS T (Obfuscated.pack KS T st p1).1 draws2 = some st') :
    (∃ h, st.head = some h ∧
      (Obfuscated.pack KS T st p1).2 =
        h ++ ksBytes (KS st.tx_cipher.key st.tx_cipher.iv) st.tx_cipher.pos
               (T.pack st.inner p1).2) ∧
    (Obfuscated.pack KS T st p1).1.head = none ∧
    (Obfuscated.pack KS T (Obfuscated.pack KS T st p1).1 p2).2 =
      ksBytes (KS (Obfuscated.pack KS T st p1).1.tx_cipher.key
                  (Obfuscated.pack KS T st p1).1.tx_cipher.iv)
        (Obfuscated.pack KS T st p1).1.tx_cipher.pos
        (T.pack (Obfuscated.pack KS T st p1).1.inner p2).2 ∧
    (∃ h2, st'.head = some h2 ∧
      (Obfuscated.pack KS T st' p3).2 =
        h2 ++ ksBytes (KS st'.tx_cipher.key st'.tx_cipher.iv) st'.tx_cipher.pos
                (T.pack st'.inner p3).2 ∧
      (Obfuscated.pack KS T st' p3).1.head = none ∧
      (Obfuscated.pack KS T (Obfuscated.pack KS T st' p3).1 p4).2 =
        ksBytes (KS (Obfuscated.pack KS T st' p3).1.tx_cipher.key
                    (Obfuscated.pack KS T st' p3).1.tx_cipher.iv)
          (Obfuscated.pack KS T st' p3).1.tx_cipher.pos
          (T.pack (Obfuscated.pack KS T st' p3).1.inner p4).2) := by
  have hst := new_eq KS T s draws b hd
  rw [hnew] at hst
  have hh : st.head = some (headerBlock KS b T.obfuscated_tag) :=
    congrArg Obfuscated.head (Option.some.inj hst)
  have hst' := reset_eq KS T (Obfuscated.pack KS T st p1).1 draws2 b2 hd2
  rw [hreset] at hst'
  have hh' : st'.head = some (headerBlock KS b2 T.obfuscated_tag) :=
    congrArg Obfuscated.head (Option.some.inj hst')
  refine ⟨⟨headerBlock KS b T.obfuscated_tag, hh, ?_⟩, ?_, ?_,
    ⟨headerBlock KS b2 T.obfuscated_tag, hh', ?_, ?_, ?_⟩⟩
  · rw [pack_eq_of_head_some KS T st p1 _ hh]
  · rw [pack_fst]
  · rw [pack_fst KS T st p1, pack_eq_of_head_none _ _ _ _ rfl]
  · rw [pack_eq_of_head_some KS T st' p3 _ hh']
  · rw [pack_fst]
  · rw [pack_fst KS T st' p3, pack_eq_of_head_none _ _ _ _ rfl]

/-- C6 witness: construction, two packs, reset and two more packs on a
concrete instance. -/
theorem claim_C6_witness :
    Obfuscated.new KSz T0 () draws7 = some st7 ∧
    Obfuscated.reset KSz T0 (Obfuscated.pack KSz T0 st7 [1]).1 draws0 = some str6 ∧
    ((∃ h, st7.head = some h ∧
      (Obfuscated.pack KSz T0 st7 [1]).2 =
        h ++ ksBytes (KSz st7.tx_cipher.key st7.tx_cipher.iv) st7.tx_cipher.pos
               (T0.pack st7.inner [1]).2) ∧
    (Obfuscated.pack KSz T0 st7 [1]).1.head = none ∧
    (Obfuscated.pack KSz T0 (Obfuscated.pack KSz T0 st7 [1]).1 [2]).2 =
      ksBytes (KSz (Obfuscated.pack KSz T0 st7 [1]).1.tx_cipher.key
                  (Obfuscated.pack KSz T0 st7 [1]).1.tx_cipher.iv)
        (Obfuscated.pack KSz T0 st7 [1]).1.tx_cipher.pos
        (T0.pack (Obfuscated.pack KSz T0 st7 [1]).1.inner [2]).2 ∧
    (∃ h2, str6.head = some h2 ∧
      (Obfuscated.pack KSz T0 str6 [3]).2 =
        h2 ++ ksBytes (KSz str6.tx_cipher.key str6.tx_cipher.iv) str6.tx_cipher.pos
                (T0.pack str6.inner [3]).2 ∧
      (Obfuscated.pack KSz T0 str6 [3]).1.head = none ∧
      (Obfuscated.pack KSz T0 (Obfuscated.pack KSz T0 str6 [3]).1 [4]).2 =
        ksBytes (KSz (Obfuscated.pack KSz T0 str6 [3]).1.tx_cipher.key
                    (Obfuscated.pack KSz T0 str6 [3]).1.tx_cipher.iv)
          (Obfuscated.pack KSz T0 str6 [3]).1.tx_cipher.pos
          (T0.pack (Obfuscated.pack KSz T0 str6 [3]).1.inner [4]).2)) :=
  ⟨by decide, by decide,
   claim_C6 Unit KSz T0 () draws7 draws0 b7 b0 [1] [2] [3] [4] st7 str6
     (by decide) (by decide) (by decide) (by decide)⟩

/-- C7 counterexample: a header block whose transmit key/IV differ from
its receive key/IV, yet applying `deobfuscate` to the bytes produced by
`pack` (after the 64-byte header) reproduces the inner-framed payload
`[7, 8, 9]` — so key/IV inequality alone does not make the directions
non-interchangeable. -/
theorem claim_C7_counterexample :
    st7.tx_cipher.key ≠ st7.rx_cipher.key ∧
    st7.tx_cipher.iv ≠ st7.rx_cipher.iv ∧
    (Obfuscated.deobfuscate KSz (Obfuscated.pack KSz T0 st7 [7, 8, 9]).1
        (List.drop 64 (Obfuscated.pack KSz T0 st7 [7, 8, 9]).2)).2 = [7, 8, 9] := by
  decide

/-- C7 (amended): for a state with no pending header, `deobfuscate`
applied (on the same decorator instance) to the bytes produced by
`pack` reproduces the inner-framed payload precisely when the transmit
keystream segment at the transmit cursor coincides (mod 256) with the
receive keystream segment at the receive cursor over the framed length;
it fails exactly when they differ somewhere. -/
theorem claim_C7_amended (σ : Type) (KS : KSF) (T : InnerTransport σ)
    (st : Obfuscated σ) (payload : List Nat) (hhead : st.head = none) :
    (Obfuscated.deobfuscate KS (Obfuscated.pack KS T st payload).1
        (Obfuscated.pack KS T st payload).2).2 = (T.pack st.inner payload).2 ↔
      ∀ k, k < (T.pack st.inner payload).2.length →
        KS st.tx_cipher.key st.tx_cipher.iv (st.tx_cipher.pos + k) % 256 =
          KS st.rx_cipher.key st.rx_cipher.iv (st.rx_cipher.pos + k) % 256 := by
  rw [pack_eq_of_head_none KS T st payload hhead]
  show ksBytes (KS st.rx_cipher.key st.rx_cipher.iv) st.rx_cipher.pos
      (ksBytes (KS st.tx_cipher.key st.tx_cipher.iv) st.tx_cipher.pos
        (T.pack st.inner payload).2) = (T.pack st.inner payload).2 ↔ _
  exact ksBytes_ksBytes_eq_self _ _ _ _ _

/-- C7 witness: the amended equivalence at a concrete header-free state
under the all-zero keystream family. -/
theorem claim_C7_amended_witness :
    ((Obfuscated.deobfuscate KSz (Obfuscated.pack KSz T0 stn [7]).1
        (Obfuscated.pack KSz T0 stn [7]).2).2 = (T0.pack stn.inner [7]).2 ↔
      ∀ k, k < (T0.pack stn.inner [7]).2.length →
        KSz stn.tx_cipher.key stn.tx_cipher.iv (stn.tx_cipher.pos + k) % 256 =
          KSz stn.rx_cipher.key stn.rx_cipher.iv (stn.rx_cipher.pos + k) % 256) :=
  claim_C7_amended Unit KSz T0 stn [7] rfl

/-- C10: immediately after `new` (and after `reset`) the transmit
cipher has consumed exactly 64 keystream bytes (pre-encrypting the
header copy), the first `pack` therefore encrypts the framed payload at
keystream positions starting at 64, and successive `pack` calls consume
contiguous non-overlapping keystream segments. -/
theorem claim_C10 (σ : Type) (KS : KSF) (T : InnerTransport σ) (s : σ)
    (draws draws2 : List (List Nat)) (b b2 : List Nat)
    (st st₂ : Obfuscated σ) (payload payload2 : List Nat)
    (hd : drawInit draws = some b) (hb : b.length = 64)
    (htag : T.obfuscated_tag.length = 4)
    (hnew : Obfuscated.new KS T s draws = some st)
    (hd2 : drawInit draws2 = some b2) (hb2 : b2.length = 64)
    (hreset : Obfuscated.reset KS T st draws2 = some st₂) :
    st.tx_cipher.pos = 64 ∧
    st₂.tx_cipher.pos = 64 ∧
    (Obfuscated.pack KS T st payload).2 =
      st.head.getD [] ++
        ksBytes (KS st.tx_cipher.key st.tx_cipher.iv) 64 (T.pack s payload).2 ∧
    (Obfuscated.pack KS T st payload).1.tx_cipher.pos =
      64 + (T.pack s payload).2.length ∧
    (Obfuscated.pack KS T (Obfuscated.pack KS T st payload).1 payload2).2 =
      ksBytes (KS st.tx_cipher.key st.tx_cipher.iv)
        (64 + (T.pack s payload).2.length)
        (T.pack (Obfuscated.pack KS T st payload).1.inner payload2).2 := by
  have hst := new_eq KS T s draws b hd
  rw [hnew] at hst
  have hstv := Option.some.inj hst
  have hst₂ := reset_eq KS T st draws2 b2 hd2
  rw [hreset] at hst₂
  have htx₂ : st₂.tx_cipher =
      ⟨slice (taggedBlock b2 T.obfuscated_tag) 8 40,
       slice (taggedBlock b2 T.obfuscated_tag) 40 56,
       (taggedBlock b2 T.obfuscated_tag).length⟩ :=
    congrArg Obfuscated.tx_cipher (Option.some.inj hst₂)
  subst hstv
  have hlen := taggedBlock_length b T.obfuscated_tag hb htag
  have hlen2 := taggedBlock_length b2 T.obfuscated_tag hb2 htag
  refine ⟨hlen, by rw [htx₂]; exact hlen2, ?_, ?_, ?_⟩
  · rw [pack_eq_of_head_some KS T _ payload (headerBlock KS b T.obfuscated_tag) rfl]
    simp only [Option.getD_some, hlen]
  · rw [pack_fst]
    simp only [hlen]
  · rw [pack_fst KS T _ payload, pack_eq_of_head_none _ _ _ _ rfl]
    simp only [hlen]

/-- C10 witness: the keystream-cursor facts at a concrete instance. -/
theorem claim_C10_witness :
    Obfuscated.new KSz T0 () draws7 = some st7 ∧
    Obfuscated.reset KSz T0 st7 draws0 = some str10 ∧
    (st7.tx_cipher.pos = 64 ∧
     str10.tx_cipher.pos = 64 ∧
     (Obfuscated.pack KSz T0 st7 [9]).2 =
       st7.head.getD [] ++
         ksBytes (KSz st7.tx_cipher.key st7.tx_cipher.iv) 64 (T0.pack () [9]).2 ∧
     (Obfuscated.pack KSz T0 st7 [9]).1.tx_cipher.pos =
       64 + (T0.pack () [9]).2.length ∧
     (Obfuscated.pack KSz T0 (Obfuscated.pack KSz T0 st7 [9]).1 [5, 6]).2 =
       ksBytes (KSz st7.tx_cipher.key st7.tx_cipher.iv)
         (64 + (T0.pack () [9]).2.length)
         (T0.pack (Obfuscated.pack KSz T0 st7 [9]).1.inner [5, 6]).2) :=
  ⟨by decide, by decide,
   claim_C10 Unit KSz T0 () draws7 draws0 b7 b0 st7 str10 [9] [5, 6]
     (by decide) (by decide) (by decide) (by decide) (by decide) (by decide)
     (by decide)⟩

/-- C9: with zero valid salts, submitting any number of requests leaves
each recorded as `Pending` (submission is a total operation — no caller
ever blocks inline waiting for a salt) and schedules the out-of-band
salt refresh; as soon as an ingest yields a current salt, every pending
request is re-evaluated and moves to `Sent` — none remains `Pending`. -/
theorem claim_C9 (d : Dispatcher) (now now2 : Int) (cids : List Nat)
    (fresh : List Salt) (s : Salt)
    (hempty : d.store.pick_current now = none)
    (hingest : ((d.submitAll now cids).store.ingest fresh).pick_current now2 =
      some s) :
    (∀ c ∈ cids, (c, ReqState.Pending) ∈ (d.submitAll now cids).inflight) ∧
    (cids ≠ [] → (d.submitAll now cids).refresh_requested = true) ∧
    (∀ c ∈ cids, (c, ReqState.Sent s.id) ∈
        ((d.submitAll now cids).ingest fresh now2).inflight) ∧
    ∀ e ∈ ((d.submitAll now cids).ingest fresh now2).inflight,
      e.2 ≠ ReqState.Pending := by
  obtain ⟨h1, h2, h3⟩ := submitAll_of_empty d now cids hempty
  have hmem : ∀ c ∈ cids, (c, ReqState.Pending) ∈ (d.submitAll now cids).inflight := by
    intro c hc
    rw [h2]
    exact List.mem_append_right _ (List.mem_map_of_mem _ hc)
  have hingest_eq : (d.submitAll now cids).ingest fresh now2 =
      ⟨(d.submitAll now cids).store.ingest fresh,
       (d.submitAll now cids).inflight.map fun e =>
         match e.2 with
         | ReqState.Pending => (e.1, ReqState.Sent s.id)
         | _ => e,
       false⟩ := by
    simp [Dispatcher.ingest, hingest]
  refine ⟨hmem, ?_, ?_, ?_⟩
  · intro hne
    rw [h3]
    cases cids with
    | nil => exact absurd rfl hne
    | cons c cs => simp
  · intro c hc
    rw [hingest_eq]
    exact List.mem_map_of_mem _ (hmem c hc)
  · intro e he
    rw [hingest_eq] at he
    simp only [List.mem_map] at he
    obtain ⟨⟨cid, rst⟩, ha, rfl⟩ := he
    cases rst <;> simp

/-- C9 witness: two concurrent requests submitted against an empty
store all complete once a valid salt is ingested. -/
theorem claim_C9_witness :
    d0.store.pick_current 0 = none ∧
    ((d0.submitAll 0 [1, 2]).store.ingest [salt0]).pick_current 0 = some salt0 ∧
    ((∀ c ∈ [1, 2],
        ((c, ReqState.Pending) : Nat × ReqState) ∈ (d0.submitAll 0 [1, 2]).inflight) ∧
     (([1, 2] : List Nat) ≠ [] → (d0.submitAll 0 [1, 2]).refresh_requested = true) ∧
     (∀ c ∈ [1, 2], ((c, ReqState.Sent salt0.id) : Nat × ReqState) ∈
        ((d0.submitAll 0 [1, 2]).ingest [salt0] 0).inflight) ∧
     ∀ e ∈ ((d0.submitAll 0 [1, 2]).ingest [salt0] 0).inflight,
       e.2 ≠ ReqState.Pending) :=
  ⟨by decide, by decide,
   claim_C9 d0 0 0 [1, 2] [salt0] salt0 (by decide) (by decide)⟩

end Grammers
